import Mathlib

/-!
Verification of the retry / pagination / aggregation core of the token-analysis
server (`server/services/tokenHolders.js`, `server/services/onChainMetrics.js`,
`server/services/dexscreener.js`).

Modelling conventions:
* JavaScript floating-point numbers are modelled as rationals (`ℚ`).
* `parseFloat` results that are missing, falsy, or `NaN` are modelled as an
  `Option ℚ` that is `none`; a present parseable value `q` is `some q`.
* Fallible asynchronous calls are modelled as `Except` values; a thrown
  exception is the `.error` constructor.
* `Math.random()` is an explicit parameter (a rational in `[0, 1)`), one value
  per attempt.
-/

/-- The `options` parameter of `withRetry` (`tokenHolders.js` lines 32-41).
Delays are rationals standing for floating-point millisecond values. -/
structure RetryOptions where
  maxRetries : ℕ
  initialDelayMs : ℚ
  maxDelayMs : ℚ
  backoffFactor : ℚ
  jitterFactor : ℚ

/-- What a `withRetry` call raises when all attempts are spent: either the
wrapped operation's own last error, re-raised unwrapped (line 91), or the
fresh `Rate limit persists` error object constructed at line 97.  The two are
distinct constructors, mirroring the fact that line 97 builds a new `Error`
rather than re-throwing the operation's error. -/
inductive RetryError (ε : Type) where
  | original (e : ε)
  | rateLimitPersists
deriving DecidableEq

/-- The delay update performed after a failed attempt (lines 70-93): a
rate-limit failure uses the escalated factor
`backoffFactor + consecutiveRateLimits * 0.5` (line 75), any other failure the
plain `backoffFactor` (line 83); both are capped at `maxDelayMs`. -/
def nextDelay (opts : RetryOptions) (isRateLimit : Bool)
    (consecutiveRateLimits : ℕ) (currentDelay : ℚ) : ℚ :=
  if isRateLimit then
    min (currentDelay * (opts.backoffFactor + consecutiveRateLimits * (1 / 2)))
      opts.maxDelayMs
  else
    min (currentDelay * opts.backoffFactor) opts.maxDelayMs

/-- The sleep duration computed before a retry (lines 50-51):
`Math.max(1000, Math.floor(currentDelay + jitter))` where
`jitter = jitterFactor * currentDelay * (Math.random() - 0.5)`. -/
def delayWithJitter (opts : RetryOptions) (currentDelay rand : ℚ) : ℤ :=
  max 1000 ⌊currentDelay + opts.jitterFactor * currentDelay * (rand - 1 / 2)⌋

/-- The `withRetry` loop of `tokenHolders.js` lines 46-100.  `fn attempt` is
the outcome of the operation's invocation number `attempt` (starting at 0);
`rands attempt` is the `Math.random()` value drawn before that attempt.
`remaining` is the number of retries still allowed, i.e.
`opts.maxRetries - attempt`; the code's exhaustion test `attempt >= maxRetries`
is exactly `remaining = 0`.  Returns the final outcome, the number of
invocations of `fn` that occurred, and the list of sleep durations taken
before each retry (in order). -/
def retryGo {ε α : Type} (isRL : ε → Bool) (opts : RetryOptions)
    (fn : ℕ → Except ε α) (rands : ℕ → ℚ) :
    ℕ → ℕ → ℚ → ℕ → Except (RetryError ε) α × ℕ × List ℤ
  | remaining, attempt, currentDelay, consecutiveRateLimits =>
    match fn attempt, remaining with
    | .ok v, _ => (.ok v, 1, [])
    | .error e, 0 =>
      -- attempt = maxRetries: lines 89-92 re-raise the original error for a
      -- non-rate-limit failure, lines 95-98 raise `Rate limit persists` for a
      -- rate-limit failure.
      (if isRL e then .error .rateLimitPersists else .error (.original e), 1, [])
    | .error e, rem + 1 =>
      let crl' := if isRL e then consecutiveRateLimits + 1 else consecutiveRateLimits
      let cd' := nextDelay opts (isRL e) crl' currentDelay
      let rest := retryGo isRL opts fn rands rem (attempt + 1) cd' crl'
      (rest.1, rest.2.1 + 1, delayWithJitter opts cd' (rands (attempt + 1)) :: rest.2.2)

/-- `withRetry(fn, options)` (line 32): attempt 0 with `maxRetries` retries
remaining, `currentDelay = initialDelayMs`, `consecutiveRateLimits = 0`. -/
def withRetry {ε α : Type} (isRL : ε → Bool) (opts : RetryOptions)
    (fn : ℕ → Except ε α) (rands : ℕ → ℚ) :
    Except (RetryError ε) α × ℕ × List ℤ :=
  retryGo isRL opts fn rands opts.maxRetries 0 opts.initialDelayMs 0

/-- The sequence of `currentDelay` values in a `withRetry` call whose failures
are all rate-limit classified: after the `(k+1)`-st rate-limit failure the
loop holds `consecutiveRateLimits = k + 1` and updates the delay through
`nextDelay` (lines 74-77). -/
def rlDelaySeq (opts : RetryOptions) : ℕ → ℚ
  | 0 => opts.initialDelayMs
  | k + 1 => nextDelay opts true (k + 1) (rlDelaySeq opts k)

/-! ### Pagination (`fetchAllTokenHolders`, full-pagination mode, lines 311-553) -/

/-- One raw account object of a Helius `token_accounts` page.  `owner = ""`
models a falsy `account.owner`; `amount` models the `parseFloat` outcome of
`account.amount` (`none` for falsy or `NaN`). -/
structure RawAccount where
  owner : String
  address : String
  amount : Option ℚ
deriving DecidableEq

/-- A record pushed onto `allAccounts` (lines 405-410); `decimals` is the
hard-coded 6. -/
structure ProcessedAccount where
  owner : String
  address : String
  amount : Option ℚ
  decimals : ℕ
deriving DecidableEq

/-- The records kept by the per-page `forEach` (lines 398-410): accounts with a
falsy owner are skipped, the rest are pushed with `decimals := 6`. -/
def keepAccounts (items : List RawAccount) : List ProcessedAccount :=
  (items.filter fun a => !(a.owner == "")).map fun a => ⟨a.owner, a.address, a.amount, 6⟩

/-- The contribution of one page to `totalTokenSupply` (lines 412-418): the sum
of the parsed amounts of the kept accounts (a falsy or `NaN` amount adds 0). -/
def pageSupply (items : List RawAccount) : ℚ :=
  ((items.filter fun a => !(a.owner == "")).map fun a => a.amount.getD 0).sum

/-- Outcome of the `while (hasMorePages)` pagination loop.  `failed` models a
page request whose retries were exhausted (the `withRetry` exception reaching
the outer `catch`), carrying the partial state accumulated so far.
`outOfFuel` is a modelling artefact for non-terminating upstreams. -/
inductive PagResult where
  | finished (accounts : List ProcessedAccount) (supply : ℚ) (fetches : ℕ)
  | failed (err : String) (accounts : List ProcessedAccount) (supply : ℚ) (fetches : ℕ)
  | outOfFuel (page : ℕ) (accounts : List ProcessedAccount) (supply : ℚ) (fetches : ℕ)
deriving DecidableEq

/-- The full-pagination loop (lines 316-429).  Per iteration, in source order:
(1) if `maxPages > 0 && page > maxPages`, stop without fetching (line 317);
(2) fetch the page (a failure aborts the whole collection with the partial
state); (3) a zero-item page stops collection without processing (line 389);
(4) otherwise process the page; (5) a short page stops collection after
processing (line 422), else advance to the next page. -/
def paginateGo (fetchPage : ℕ → Except String (List RawAccount))
    (pageSize maxPages : ℕ) :
    ℕ → ℕ → List ProcessedAccount → ℚ → ℕ → PagResult
  | 0, page, acc, supply, fetches => .outOfFuel page acc supply fetches
  | fuel + 1, page, acc, supply, fetches =>
    if 0 < maxPages ∧ maxPages < page then .finished acc supply fetches
    else
      match fetchPage page with
      | .error e => .failed e acc supply (fetches + 1)
      | .ok items =>
        if items.length = 0 then .finished acc supply (fetches + 1)
        else
          let acc' := acc ++ keepAccounts items
          let supply' := supply + pageSupply items
          if items.length < pageSize then .finished acc' supply' (fetches + 1)
          else paginateGo fetchPage pageSize maxPages fuel (page + 1) acc' supply' (fetches + 1)

/-- The pagination loop started at page 1 with empty accumulators. -/
def paginate (fetchPage : ℕ → Except String (List RawAccount))
    (pageSize maxPages fuel : ℕ) : PagResult :=
  paginateGo fetchPage pageSize maxPages fuel 1 [] 0 0

/-! ### Holder aggregation (lines 431-465, 556-585) -/

/-- One entry of the sorted holder list: `{ owner, balance }` (line 449). -/
structure HolderEntry where
  owner : String
  balance : ℚ
deriving DecidableEq

/-- `holderBalances[owner] += amount` (lines 436-445) on an association list
in key-insertion order, which models JavaScript object key order for the
non-numeric string keys used here (base-58 addresses). -/
def addBalance : List (String × ℚ) → String → ℚ → List (String × ℚ)
  | [], owner, amt => [(owner, amt)]
  | (o, b) :: rest, owner, amt =>
    if o = owner then (o, b + amt) :: rest
    else (o, b) :: addBalance rest owner amt

/-- The `holderBalances` map built from `allAccounts` (lines 435-445): keys in
first-appearance order, values the summed parsed amounts
(`parseFloat(account.amount) || 0`). -/
def holderBalancesOf (accounts : List ProcessedAccount) : List (String × ℚ) :=
  accounts.foldl (fun l a => addBalance l a.owner (a.amount.getD 0)) []

/-- `Object.entries(holderBalances).map(([owner, balance]) => ({owner, balance}))`
(lines 448-449). -/
def holderEntries (accounts : List ProcessedAccount) : List HolderEntry :=
  (holderBalancesOf accounts).map fun p => ⟨p.1, p.2⟩

/-- Insert `x` into a descending-sorted list, after every element with a
strictly larger balance and before the first element whose balance is `≤`
its own.  Equal balances therefore keep earlier-inserted elements first. -/
def insertDesc (x : HolderEntry) : List HolderEntry → List HolderEntry
  | [] => [x]
  | y :: ys => if x.balance < y.balance then y :: insertDesc x ys else x :: y :: ys

/-- Stable descending sort by balance, modelling
`.sort((a, b) => b.balance - a.balance)` (line 450): JavaScript's
`Array.prototype.sort` is stable, and a stable descending sort is unique, so
this insertion sort computes the same list. -/
def sortDesc : List HolderEntry → List HolderEntry
  | [] => []
  | x :: xs => insertDesc x (sortDesc xs)

/-- `sortedHolders` (lines 448-450). -/
def sortedHoldersOf (accounts : List ProcessedAccount) : List HolderEntry :=
  sortDesc (holderEntries accounts)

/-- `sortedHolders.slice(0, Math.min(10, sortedHolders.length))` (line 453). -/
def topHoldersOf (accounts : List ProcessedAccount) : List HolderEntry :=
  (sortedHoldersOf accounts).take (min 10 (sortedHoldersOf accounts).length)

/-- `allHolders.size`: the number of distinct owners among the kept accounts
(owners are added to the set exactly when a record is pushed, lines 404-410). -/
def distinctOwnerCount (accounts : List ProcessedAccount) : ℕ :=
  (accounts.map fun a => a.owner).toFinset.card

/-- One entry of the `ranges` array of `calculateHolderDistribution`
(lines 564-569).  `min`/`max` are `none` when the property is absent. -/
structure BalanceRange where
  name : String
  min : Option ℚ
  max : Option ℚ
  count : ℕ
deriving DecidableEq

/-- The four balance ranges, with bounds computed from the total-supply
estimate (lines 564-569). -/
def initRanges (totalSupply : ℚ) : List BalanceRange :=
  [⟨"Whales (>1%)", some (1 / 100 * totalSupply), none, 0⟩,
   ⟨"Large (0.1-1%)", some (1 / 1000 * totalSupply), some (1 / 100 * totalSupply), 0⟩,
   ⟨"Medium (0.01-0.1%)", some (1 / 10000 * totalSupply), some (1 / 1000 * totalSupply), 0⟩,
   ⟨"Small (<0.01%)", none, some (1 / 10000 * totalSupply), 0⟩]

/-- The per-range test of lines 574-577:
`(!range.min || balance >= range.min) && (!range.max || balance < range.max)`.
JavaScript `!x` on a number is true for an absent property and for `0`, so an
absent bound and a zero bound both pass. -/
def matchesRange (balance : ℚ) (r : BalanceRange) : Bool :=
  (match r.min with
   | none => true
   | some m => decide (m = 0) || decide (m ≤ balance)) &&
  (match r.max with
   | none => true
   | some m => decide (m = 0) || decide (balance < m))

/-- Increment the count of the first matching range (`break` after the first
hit, lines 573-581). -/
def bumpFirstMatch (balance : ℚ) : List BalanceRange → List BalanceRange
  | [] => []
  | r :: rs =>
    if matchesRange balance r then { r with count := r.count + 1 } :: rs
    else r :: bumpFirstMatch balance rs

/-- `calculateHolderDistribution(holderBalances, totalSupply)` (lines 562-585):
each balance of the map increments the count of the first range it matches. -/
def calculateHolderDistribution (holderBalances : List ℚ) (totalSupply : ℚ) :
    List BalanceRange :=
  holderBalances.foldl (fun rs b => bumpFirstMatch b rs) (initRanges totalSupply)

/-! ### The result objects of `fetchAllTokenHolders` -/

/-- The object returned by `fetchAllTokenHolders` in full-pagination mode.
Fields absent from one of the two shapes (success vs failure) are `Option`s;
`top_holders = none` models `null`. -/
structure HoldersData where
  success : Bool
  error : Option String
  unique_holder_count : ℕ
  token_accounts_count : ℕ
  top_holders : Option (List HolderEntry)
  top10_concentration_percent : Option ℚ
  holders_by_balance_range : Option (List BalanceRange)
  data_source : String
deriving DecidableEq

/-- `parseFloat(x.toFixed(2))`: rounding to two decimal places (line 463),
modelled as rounding to the nearest multiple of 1/100. -/
def roundTo2 (q : ℚ) : ℚ := (round (q * 100) : ℤ) / 100

/-- The success object of lines 452-466, assembled from the accumulated
accounts and the running total-supply estimate. -/
def buildSuccess (accounts : List ProcessedAccount) (supply : ℚ) : HoldersData :=
  let top10 := topHoldersOf accounts
  let conc := if 0 < supply then (top10.map fun h => h.balance).sum / supply * 100 else 0
  { success := true
    error := none
    unique_holder_count := distinctOwnerCount accounts
    token_accounts_count := accounts.length
    top_holders := some top10
    top10_concentration_percent := some (roundTo2 conc)
    holders_by_balance_range :=
      some (calculateHolderDistribution ((holderBalancesOf accounts).map fun p => p.2) supply)
    data_source := "helius_paginated" }

/-- The error object of lines 544-552, returned (not thrown) when a page
request exhausts its retries during full pagination:
`unique_holder_count: allHolders.size || 0`,
`token_accounts_count: allAccounts.length || 0`,
`top_holders: allHolders.size > 0 ? [] : null`. -/
def buildFailure (errMsg : String) (accounts : List ProcessedAccount) : HoldersData :=
  { success := false
    error := some ("Failed to fetch token holders: " ++ errMsg)
    unique_holder_count := distinctOwnerCount accounts
    token_accounts_count := accounts.length
    top_holders := if 0 < distinctOwnerCount accounts then some [] else none
    top10_concentration_percent := none
    holders_by_balance_range := none
    data_source := "failed_with_partial_data" }

/-- `fetchAllTokenHolders` in full-pagination mode (basic mode, i.e.
`maxPages === 1 && pageSize <= 10`, takes a different path and is out of
scope): run the pagination loop, then build the success object, or — when a
page's retries were exhausted — the `failed_with_partial_data` error object.
`none` is the modelling artefact for exhausted fuel. -/
def fetchAllTokenHolders (fetchPage : ℕ → Except String (List RawAccount))
    (pageSize maxPages fuel : ℕ) : Option HoldersData :=
  match paginate fetchPage pageSize maxPages fuel with
  | .finished acc supply _ => some (buildSuccess acc supply)
  | .failed e acc _ _ => some (buildFailure e acc)
  | .outOfFuel _ _ _ _ => none

/-- Follows the spec's words, for comparison with the code's estimate: the
running sum over all processed records of "the record's amount scaled by its
decimals field", i.e. `amount / 10 ^ decimals`. -/
def specScaledSupply (accounts : List ProcessedAccount) : ℚ :=
  (accounts.map fun r => r.amount.getD 0 / 10 ^ r.decimals).sum

/-! ### DexScreener market adapter (`dexscreener.js`) -/

/-- A DexScreener trading-pair record, restricted to the fields the base/quote
disambiguation touches.  `baseAddr`/`quoteAddr` are
`pair.baseToken.address`/`pair.quoteToken.address`; the price and
price-change fields model `parseFloat` results (`none` = absent). -/
structure DexPair where
  baseAddr : String
  quoteAddr : String
  priceUsd : Option ℚ
  priceNative : Option ℚ
  priceChange_h24 : Option ℚ
  priceChange_h6 : Option ℚ
  priceChange_h1 : Option ℚ
  priceChange_m5 : Option ℚ
deriving DecidableEq

/-- `toLowerCase()`: character-wise lower-casing (executable, unlike
`String.toLower`, so that concrete witnesses evaluate). -/
def lowerStr (s : String) : String := ⟨s.data.map Char.toLower⟩

/-- Pair selection (lines 54-68): filter to pairs whose base or quote address
matches the (lower-cased) requested address, prefer the first pair where the
token is the base, otherwise take the first relevant pair. -/
def selectMainPair (normAddr : String) (pairs : List DexPair) : Option DexPair :=
  let relevantPairs := pairs.filter fun p =>
    lowerStr p.baseAddr == normAddr || lowerStr p.quoteAddr == normAddr
  ((relevantPairs.find? fun p => lowerStr p.baseAddr == normAddr).orElse
    fun _ => relevantPairs.head?)

/-- The market-data fields affected by base/quote disambiguation. -/
structure MarketData where
  is_base_token : Bool
  price_usd : ℚ
  price_native : ℚ
  price_change_h24 : ℚ
  price_change_h6 : ℚ
  price_change_h1 : ℚ
  price_change_m5 : ℚ
deriving DecidableEq

/-- Lines 80-146: when the requested token is the quote side,
`price = 1 / parseFloat(priceUsd || 1)` and every price-change field is
multiplied by `-1`; when it is the base side the parsed values are used
unchanged. -/
def buildMarketData (normAddr : String) (mainPair : DexPair) : MarketData :=
  let isBase := lowerStr mainPair.baseAddr == normAddr
  { is_base_token := isBase
    price_usd := if isBase then mainPair.priceUsd.getD 0 else 1 / mainPair.priceUsd.getD 1
    price_native :=
      if isBase then mainPair.priceNative.getD 0 else 1 / mainPair.priceNative.getD 1
    price_change_h24 := mainPair.priceChange_h24.getD 0 * (if isBase then 1 else -1)
    price_change_h6 := mainPair.priceChange_h6.getD 0 * (if isBase then 1 else -1)
    price_change_h1 := mainPair.priceChange_h1.getD 0 * (if isBase then 1 else -1)
    price_change_m5 := mainPair.priceChange_m5.getD 0 * (if isBase then 1 else -1) }

/-- `fetchDexScreenerData` restricted to its pure pair-processing core:
normalize the requested address, select the main pair, and build the market
data; `none` models the `success: false` returns when no relevant pair
exists. -/
def fetchDexScreenerData (tokenAddress : String) (pairs : List DexPair) :
    Option MarketData :=
  (selectMainPair (lowerStr tokenAddress) pairs).map (buildMarketData (lowerStr tokenAddress))

/-! ### On-chain metrics aggregator (`onChainMetrics.js` lines 167-198) -/

/-- A JSON-like value, the payload universe of the sub-analyses. -/
inductive JVal where
  | jnull
  | jbool (b : Bool)
  | jnum (q : ℚ)
  | jstr (s : String)
  | jobj (fields : List (String × JVal))

/-- The outcome of one entry of `Promise.allSettled` (line 170). -/
inductive SettledOutcome where
  | fulfilled (v : JVal)
  | rejected (reason : JVal)

/-- The placeholder substituted for a rejected sub-analysis
(lines 179-187): `{ success: false, error: "Analysis failed" }`. -/
def analysisFailedPlaceholder : JVal :=
  .jobj [("success", .jbool false), ("error", .jstr "Analysis failed")]

/-- The object returned by `analyzeOnChainMetrics` (lines 177-189), keyed by
the three capability fields. -/
structure OnChainMetrics where
  success : Bool
  transaction_patterns : JVal
  whale_activity : JVal
  liquidity_metrics : JVal

/-- `analyzeOnChainMetrics` (lines 167-198): settle-all merge of the three
sub-analyses; a fulfilled sub-analysis contributes its value unchanged, a
rejected one the placeholder. -/
def analyzeOnChainMetrics (tr wr lr : SettledOutcome) : OnChainMetrics :=
  { success := true
    transaction_patterns :=
      match tr with
      | .fulfilled v => v
      | .rejected _ => analysisFailedPlaceholder
    whale_activity :=
      match wr with
      | .fulfilled v => v
      | .rejected _ => analysisFailedPlaceholder
    liquidity_metrics :=
      match lr with
      | .fulfilled v => v
      | .rejected _ => analysisFailedPlaceholder }

/-! ### Helper lemmas: the retry loop on a permanently failing operation -/

/-- On a permanently-failing operation, the retry loop starting with `rem`
retries remaining makes exactly `rem + 1` invocations. -/
theorem retryGo_fail_count {ε α : Type} (isRL : ε → Bool) (opts : RetryOptions)
    (errs : ℕ → ε) (rands : ℕ → ℚ) :
    ∀ (rem attempt : ℕ) (cd : ℚ) (crl : ℕ),
      (retryGo (α := α) isRL opts (fun i => .error (errs i)) rands rem attempt cd crl).2.1
        = rem + 1 := by
  intro rem
  induction rem with
  | zero => intro attempt cd crl; simp [retryGo]
  | succ r ih =>
    intro attempt cd crl
    simp [retryGo, ih]

/-- On a permanently-failing operation, the retry loop raises: the operation's
own error at the final attempt when that error is not rate-limit classified,
and the `Rate limit persists` error when it is. -/
theorem retryGo_fail_result {ε α : Type} (isRL : ε → Bool) (opts : RetryOptions)
    (errs : ℕ → ε) (rands : ℕ → ℚ) :
    ∀ (rem attempt : ℕ) (cd : ℚ) (crl : ℕ),
      (retryGo (α := α) isRL opts (fun i => .error (errs i)) rands rem attempt cd crl).1
        = .error (if isRL (errs (attempt + rem)) then .rateLimitPersists
                  else .original (errs (attempt + rem))) := by
  intro rem
  induction rem with
  | zero =>
    intro attempt cd crl
    simp only [retryGo, Nat.add_zero]
    split <;> rfl
  | succ r ih =>
    intro attempt cd crl
    have h := ih (attempt + 1) (nextDelay opts (isRL (errs attempt))
      (if isRL (errs attempt) then crl + 1 else crl) cd)
      (if isRL (errs attempt) then crl + 1 else crl)
    simp only [retryGo]
    rw [show attempt + 1 + r = attempt + (r + 1) by omega] at h
    exact h

/-- Claim C1: for every retry policy with `maxRetries = n` and every operation
that fails on every invocation, `withRetry` invokes the operation exactly
`n + 1` times (the initial try plus `n` retries) and then raises; the count
returned is the total number of invocations, so the operation is never
invoked after the `(n+1)`-th failure. -/
theorem withRetry_fail_invocation_count (ε α : Type) (isRL : ε → Bool)
    (opts : RetryOptions) (errs : ℕ → ε) (rands : ℕ → ℚ) :
    (withRetry (α := α) isRL opts (fun i => .error (errs i)) rands).2.1
        = opts.maxRetries + 1
    ∧ ∃ re, (withRetry (α := α) isRL opts (fun i => .error (errs i)) rands).1
        = .error re := by
  constructor
  · exact retryGo_fail_count isRL opts errs rands opts.maxRetries 0 opts.initialDelayMs 0
  · refine ⟨_, retryGo_fail_result isRL opts errs rands opts.maxRetries 0 opts.initialDelayMs 0⟩

/-- Witness for C1 at a concrete policy and a concretely failing operation:
the operation is invoked exactly 6 times for `maxRetries = 5`. -/
theorem withRetry_fail_invocation_count_witness :
    (withRetry (α := Unit) (fun _ : Unit => false)
        ⟨5, 2000, 60000, 5 / 2, 1 / 5⟩ (fun _ => .error ()) (fun _ => 0)).2.1 = 6 := by
  exact (withRetry_fail_invocation_count Unit Unit (fun _ => false)
    ⟨5, 2000, 60000, 5 / 2, 1 / 5⟩ (fun _ => ()) (fun _ => 0)).1

/-- Claim C4: when `withRetry` exhausts all attempts, the raised error is the
operation's own last error, unwrapped (`RetryError.original` carries it
verbatim), unless that last failure is rate-limit classified, in which case a
distinct `Rate limit persists` error is raised instead; the two constructors
are never equal, so the caller can distinguish the outcomes. -/
theorem withRetry_exhaustion_error (ε α : Type) (isRL : ε → Bool)
    (opts : RetryOptions) (errs : ℕ → ε) (rands : ℕ → ℚ) :
    (withRetry (α := α) isRL opts (fun i => .error (errs i)) rands).1
        = .error (if isRL (errs opts.maxRetries) then .rateLimitPersists
                  else .original (errs opts.maxRetries))
    ∧ ∀ e : ε, (RetryError.rateLimitPersists : RetryError ε) ≠ .original e := by
  constructor
  · have h := retryGo_fail_result (α := α) isRL opts errs rands opts.maxRetries 0
      opts.initialDelayMs 0
    simpa using h
  · intro e h
    exact RetryError.noConfusion h

/-- Witness for C4: the non-rate-limit exhaustion re-raises the operation's
error, the rate-limit exhaustion raises `Rate limit persists`. -/
theorem withRetry_exhaustion_error_witness :
    (withRetry (α := Unit) (fun b : Bool => b)
        ⟨2, 1000, 30000, 2, 0⟩ (fun _ => .error false) (fun _ => 0)).1
        = .error (.original false)
    ∧ (withRetry (α := Unit) (fun b : Bool => b)
        ⟨2, 1000, 30000, 2, 0⟩ (fun _ => .error true) (fun _ => 0)).1
        = .error .rateLimitPersists := by
  constructor
  · have h := (withRetry_exhaustion_error Bool Unit (fun b => b)
      ⟨2, 1000, 30000, 2, 0⟩ (fun _ => false) (fun _ => 0)).1
    simpa using h
  · have h := (withRetry_exhaustion_error Bool Unit (fun b => b)
      ⟨2, 1000, 30000, 2, 0⟩ (fun _ => true) (fun _ => 0)).1
    simpa using h

/-! ### Helper lemmas: the rate-limit delay sequence -/

/-- The rate-limit delay sequence stays nonnegative for a sane policy. -/
theorem rlDelaySeq_nonneg (opts : RetryOptions) (h0 : 0 ≤ opts.initialDelayMs)
    (h1 : opts.initialDelayMs ≤ opts.maxDelayMs) (h2 : 1 ≤ opts.backoffFactor) :
    ∀ k, 0 ≤ rlDelaySeq opts k := by
  intro k
  induction k with
  | zero => exact h0
  | succ n ih =>
    have hf : (0 : ℚ) ≤ opts.backoffFactor + (n + 1 : ℕ) * (1 / 2) := by
      have : (0 : ℚ) ≤ ((n + 1 : ℕ) : ℚ) := by positivity
      linarith
    have hM : (0 : ℚ) ≤ opts.maxDelayMs := le_trans h0 h1
    simp only [rlDelaySeq, nextDelay, if_pos rfl]
    exact le_min (mul_nonneg ih hf) hM

/-- The rate-limit delay sequence never exceeds the cap. -/
theorem rlDelaySeq_le_max (opts : RetryOptions)
    (h1 : opts.initialDelayMs ≤ opts.maxDelayMs) :
    ∀ k, rlDelaySeq opts k ≤ opts.maxDelayMs := by
  intro k
  cases k with
  | zero => exact h1
  | succ n =>
    simp only [rlDelaySeq, nextDelay, if_pos rfl]
    exact min_le_right _ _

/-- Bounds for the slept duration: at least the 1000 ms floor, and at most
`maxDelayMs * (1 + jitterFactor)` for any jitter draw in `[0, 1)`. -/
theorem delayWithJitter_bounds (opts : RetryOptions) (d r : ℚ)
    (hd : 0 ≤ d) (hdm : d ≤ opts.maxDelayMs) (hj : 0 ≤ opts.jitterFactor)
    (hm : 1000 ≤ opts.maxDelayMs) (_hr0 : 0 ≤ r) (hr1 : r < 1) :
    (1000 : ℚ) ≤ (delayWithJitter opts d r : ℚ)
    ∧ (delayWithJitter opts d r : ℚ)
        ≤ opts.maxDelayMs * (1 + opts.jitterFactor) := by
  have hcast : ((delayWithJitter opts d r : ℤ) : ℚ)
      = max (1000 : ℚ) ((⌊d + opts.jitterFactor * d * (r - 1 / 2)⌋ : ℤ) : ℚ) := by
    simp [delayWithJitter]
  constructor
  · rw [hcast]; exact le_max_left _ _
  · rw [hcast]
    apply max_le
    · nlinarith
    · have hfl : ((⌊d + opts.jitterFactor * d * (r - 1 / 2)⌋ : ℤ) : ℚ)
          ≤ d + opts.jitterFactor * d * (r - 1 / 2) := Int.floor_le _
      have hjd : 0 ≤ opts.jitterFactor * d := mul_nonneg hj hd
      have hdmj : opts.jitterFactor * d ≤ opts.jitterFactor * opts.maxDelayMs :=
        mul_le_mul_of_nonneg_left hdm hj
      nlinarith

/-- In a run whose failures are all rate-limit classified, starting at attempt
`k` with `consecutiveRateLimits = k` and `currentDelay = rlDelaySeq opts k`,
the sleeps taken are exactly the jittered values of the delay sequence. -/
theorem retryGo_allRL_sleeps {ε α : Type} (isRL : ε → Bool) (opts : RetryOptions)
    (errs : ℕ → ε) (rands : ℕ → ℚ) (h : ∀ i, isRL (errs i) = true) :
    ∀ (rem k : ℕ),
      (retryGo (α := α) isRL opts (fun i => .error (errs i)) rands
          rem k (rlDelaySeq opts k) k).2.2
        = (List.range' (k + 1) rem).map
            fun a => delayWithJitter opts (rlDelaySeq opts a) (rands a) := by
  intro rem
  induction rem with
  | zero => intro k; simp [retryGo]
  | succ r ih =>
    intro k
    have hnd : nextDelay opts true (k + 1) (rlDelaySeq opts k) = rlDelaySeq opts (k + 1) := rfl
    simp only [retryGo, h k, if_true]
    rw [hnd, ih (k + 1)]
    simp [List.range']

/-- Claim C5: within a single `withRetry` call whose failures are all
rate-limit classified, the computed delay starts at `initialDelayMs`, is
monotonically non-decreasing, and never exceeds the cap `maxDelayMs`; for
every jitter draw in `[0, 1)` the slept duration is at least the 1000 ms
floor and never exceeds `maxDelayMs * (1 + jitterFactor)`; and the sleeps of
such a run are exactly the jittered values of this delay sequence. -/
theorem rateLimit_delay_monotone_sleep_bounded (opts : RetryOptions)
    (h0 : 0 ≤ opts.initialDelayMs) (h1 : opts.initialDelayMs ≤ opts.maxDelayMs)
    (h2 : 1 ≤ opts.backoffFactor) (h3 : 0 ≤ opts.jitterFactor)
    (h4 : 1000 ≤ opts.maxDelayMs) :
    rlDelaySeq opts 0 = opts.initialDelayMs
    ∧ (∀ k, rlDelaySeq opts k ≤ rlDelaySeq opts (k + 1))
    ∧ (∀ k, rlDelaySeq opts k ≤ opts.maxDelayMs)
    ∧ (∀ k r, 0 ≤ r → r < 1 →
        (1000 : ℚ) ≤ (delayWithJitter opts (rlDelaySeq opts k) r : ℚ)
        ∧ (delayWithJitter opts (rlDelaySeq opts k) r : ℚ)
            ≤ opts.maxDelayMs * (1 + opts.jitterFactor))
    ∧ (∀ (ε : Type) (isRL : ε → Bool) (errs : ℕ → ε) (rands : ℕ → ℚ),
        (∀ i, isRL (errs i) = true) →
        (withRetry (α := Unit) isRL opts (fun i => .error (errs i)) rands).2.2
          = (List.range' 1 opts.maxRetries).map
              fun a => delayWithJitter opts (rlDelaySeq opts a) (rands a)) := by
  refine ⟨rfl, ?_, rlDelaySeq_le_max opts h1, ?_, ?_⟩
  · intro k
    have hd := rlDelaySeq_nonneg opts h0 h1 h2 k
    have hf : (1 : ℚ) ≤ opts.backoffFactor + (k + 1 : ℕ) * (1 / 2) := by
      have : (0 : ℚ) ≤ ((k + 1 : ℕ) : ℚ) := by positivity
      linarith
    have hle : rlDelaySeq opts k ≤ rlDelaySeq opts k * (opts.backoffFactor + (k + 1 : ℕ) * (1 / 2)) := by
      nlinarith
    simp only [rlDelaySeq, nextDelay, if_pos rfl]
    exact le_min hle (rlDelaySeq_le_max opts h1 k)
  · intro k r hr0 hr1
    exact delayWithJitter_bounds opts (rlDelaySeq opts k) r
      (rlDelaySeq_nonneg opts h0 h1 h2 k) (rlDelaySeq_le_max opts h1 k) h3 h4 hr0 hr1
  · intro ε isRL errs rands h
    exact retryGo_allRL_sleeps isRL opts errs rands h opts.maxRetries 0

/-- Witness for C5 at the default policy of `withRetry`
(`maxRetries 5, initialDelayMs 2000, maxDelayMs 60000, backoffFactor 2.5,
jitterFactor 0.2`). -/
theorem rateLimit_delay_monotone_sleep_bounded_witness :
    rlDelaySeq ⟨5, 2000, 60000, 5 / 2, 1 / 5⟩ 1 ≤ rlDelaySeq ⟨5, 2000, 60000, 5 / 2, 1 / 5⟩ 2
    ∧ (1000 : ℚ) ≤ (delayWithJitter ⟨5, 2000, 60000, 5 / 2, 1 / 5⟩
        (rlDelaySeq ⟨5, 2000, 60000, 5 / 2, 1 / 5⟩ 2) (1 / 4) : ℚ)
    ∧ (delayWithJitter ⟨5, 2000, 60000, 5 / 2, 1 / 5⟩
        (rlDelaySeq ⟨5, 2000, 60000, 5 / 2, 1 / 5⟩ 2) (1 / 4) : ℚ)
        ≤ 60000 * (1 + 1 / 5)
    ∧ (withRetry (α := Unit) (fun _ : Unit => true) ⟨5, 2000, 60000, 5 / 2, 1 / 5⟩
        (fun _ => .error ()) (fun _ => 1 / 4)).2.2
        = (List.range' 1 5).map
            fun a => delayWithJitter ⟨5, 2000, 60000, 5 / 2, 1 / 5⟩
              (rlDelaySeq ⟨5, 2000, 60000, 5 / 2, 1 / 5⟩ a) (1 / 4) := by
  have h := rateLimit_delay_monotone_sleep_bounded ⟨5, 2000, 60000, 5 / 2, 1 / 5⟩
    (by norm_num) (by norm_num) (by norm_num) (by norm_num) (by norm_num)
  refine ⟨h.2.1 1, (h.2.2.2.1 2 (1 / 4) (by norm_num) (by norm_num)).1,
    (h.2.2.2.1 2 (1 / 4) (by norm_num) (by norm_num)).2, ?_⟩
  exact h.2.2.2.2 Unit (fun _ => true) (fun _ => ()) (fun _ => 1 / 4) (fun _ => rfl)

/-- Claim C2: for every combination of outcomes of the three sub-analyses,
`analyzeOnChainMetrics` returns an object carrying all three capability keys;
a fulfilled sub-analysis contributes its own value unchanged, a rejected one
is replaced by the `{success: false, error: "Analysis failed"}` placeholder,
and one rejection never disturbs the other keys. -/
theorem analyzeOnChainMetrics_settleAll (tr wr lr : SettledOutcome) :
    (analyzeOnChainMetrics tr wr lr).success = true
    ∧ (∀ v, tr = .fulfilled v → (analyzeOnChainMetrics tr wr lr).transaction_patterns = v)
    ∧ (∀ v, tr = .rejected v →
        (analyzeOnChainMetrics tr wr lr).transaction_patterns = analysisFailedPlaceholder)
    ∧ (∀ v, wr = .fulfilled v → (analyzeOnChainMetrics tr wr lr).whale_activity = v)
    ∧ (∀ v, wr = .rejected v →
        (analyzeOnChainMetrics tr wr lr).whale_activity = analysisFailedPlaceholder)
    ∧ (∀ v, lr = .fulfilled v → (analyzeOnChainMetrics tr wr lr).liquidity_metrics = v)
    ∧ (∀ v, lr = .rejected v →
        (analyzeOnChainMetrics tr wr lr).liquidity_metrics = analysisFailedPlaceholder) := by
  refine ⟨rfl, ?_, ?_, ?_, ?_, ?_, ?_⟩ <;>
    (intro v hv; subst hv; rfl)

/-- Witness for C2, mirroring the spec's example: A succeeds with `{x: 1}`,
B rejects, C succeeds with `{y: 2}`; the result keeps A's and C's values and
substitutes the placeholder for B. -/
theorem analyzeOnChainMetrics_settleAll_witness :
    (analyzeOnChainMetrics (.fulfilled (.jobj [("x", .jnum 1)])) (.rejected .jnull)
        (.fulfilled (.jobj [("y", .jnum 2)]))).transaction_patterns
      = .jobj [("x", .jnum 1)]
    ∧ (analyzeOnChainMetrics (.fulfilled (.jobj [("x", .jnum 1)])) (.rejected .jnull)
        (.fulfilled (.jobj [("y", .jnum 2)]))).whale_activity
      = analysisFailedPlaceholder
    ∧ (analyzeOnChainMetrics (.fulfilled (.jobj [("x", .jnum 1)])) (.rejected .jnull)
        (.fulfilled (.jobj [("y", .jnum 2)]))).liquidity_metrics
      = .jobj [("y", .jnum 2)] := by
  have h := analyzeOnChainMetrics_settleAll (.fulfilled (.jobj [("x", .jnum 1)]))
    (.rejected .jnull) (.fulfilled (.jobj [("y", .jnum 2)]))
  exact ⟨h.2.1 _ rfl, h.2.2.2.2.1 _ rfl, h.2.2.2.2.2.1 _ rfl⟩

/-! ### Helper lemma: pagination over uniformly full pages -/

/-- Over an upstream of full pages, starting at `page ≤ maxPages + 1`, the
loop fetches pages `page .. maxPages` and then stops at the page-limit check,
having made `maxPages + 1 - page` further fetches. -/
theorem paginateGo_full_pages (fetchPage : ℕ → Except String (List RawAccount))
    (pageSize maxPages : ℕ) (hm : 0 < maxPages) (hs : 0 < pageSize)
    (hfull : ∀ p, ∃ items, fetchPage p = .ok items ∧ items.length = pageSize) :
    ∀ (n fuel page : ℕ) (acc : List ProcessedAccount) (supply : ℚ) (fetches : ℕ),
      maxPages + 1 - page = n → page ≤ maxPages + 1 → n < fuel →
      ∃ acc' supply',
        paginateGo fetchPage pageSize maxPages fuel page acc supply fetches
          = .finished acc' supply' (fetches + n) := by
  intro n
  induction n with
  | zero =>
    intro fuel page acc supply fetches hn hp hfuel
    obtain ⟨f, rfl⟩ : ∃ f, fuel = f + 1 := ⟨fuel - 1, by omega⟩
    have hpage : page = maxPages + 1 := by omega
    subst hpage
    refine ⟨acc, supply, ?_⟩
    simp only [paginateGo]
    rw [if_pos ⟨hm, by omega⟩]
    rfl
  | succ n ih =>
    intro fuel page acc supply fetches hn hp hfuel
    obtain ⟨f, rfl⟩ : ∃ f, fuel = f + 1 := ⟨fuel - 1, by omega⟩
    obtain ⟨items, hitems, hlen⟩ := hfull page
    have hnotstop : ¬(0 < maxPages ∧ maxPages < page) := by omega
    have hne : ¬(items.length = 0) := by omega
    have hnshort : ¬(items.length < pageSize) := by omega
    obtain ⟨acc', supply', hrec⟩ := ih f (page + 1) (acc ++ keepAccounts items)
      (supply + pageSupply items) (fetches + 1) (by omega) (by omega) (by omega)
    refine ⟨acc', supply', ?_⟩
    simp only [paginateGo]
    rw [if_neg hnotstop, hitems]
    simp only [if_neg hne, if_neg hnshort]
    rw [hrec]
    congr 1
    omega

/-- Claim C3: the full-pagination loop applies its terminal conditions per
page, in order: (1) when `maxPages > 0` and the page number exceeds it, the
loop stops without fetching that page, so with `maxPages = m` and an upstream
of more than `m` full pages exactly `m` page-fetches occur; (2) a zero-item
page stops collection without processing it (the accumulators are unchanged);
(3) a page with fewer items than `pageSize` is processed and then collection
stops without a further request. -/
theorem paginate_terminal_conditions :
    (∀ (fetchPage : ℕ → Except String (List RawAccount))
        (pageSize maxPages fuel page : ℕ) (acc : List ProcessedAccount)
        (supply : ℚ) (fetches : ℕ),
        0 < maxPages → maxPages < page →
        paginateGo fetchPage pageSize maxPages (fuel + 1) page acc supply fetches
          = .finished acc supply fetches)
    ∧ (∀ (fetchPage : ℕ → Except String (List RawAccount))
        (pageSize maxPages fuel page : ℕ) (acc : List ProcessedAccount)
        (supply : ℚ) (fetches : ℕ),
        ¬(0 < maxPages ∧ maxPages < page) → fetchPage page = .ok [] →
        paginateGo fetchPage pageSize maxPages (fuel + 1) page acc supply fetches
          = .finished acc supply (fetches + 1))
    ∧ (∀ (fetchPage : ℕ → Except String (List RawAccount))
        (pageSize maxPages fuel page : ℕ) (acc : List ProcessedAccount)
        (supply : ℚ) (fetches : ℕ) (items : List RawAccount),
        ¬(0 < maxPages ∧ maxPages < page) → fetchPage page = .ok items →
        items ≠ [] → items.length < pageSize →
        paginateGo fetchPage pageSize maxPages (fuel + 1) page acc supply fetches
          = .finished (acc ++ keepAccounts items) (supply + pageSupply items) (fetches + 1))
    ∧ (∀ (fetchPage : ℕ → Except String (List RawAccount)) (pageSize m fuel : ℕ),
        0 < m → 0 < pageSize → m < fuel →
        (∀ p, ∃ items, fetchPage p = .ok items ∧ items.length = pageSize) →
        ∃ acc supply, paginate fetchPage pageSize m fuel = .finished acc supply m) := by
  refine ⟨?_, ?_, ?_, ?_⟩
  · intro fetchPage pageSize maxPages fuel page acc supply fetches hm hp
    simp only [paginateGo]
    rw [if_pos ⟨hm, hp⟩]
  · intro fetchPage pageSize maxPages fuel page acc supply fetches hstop hempty
    simp only [paginateGo]
    rw [if_neg hstop, hempty]
    simp
  · intro fetchPage pageSize maxPages fuel page acc supply fetches items hstop hitems hne hshort
    have hne' : ¬(items.length = 0) := by
      simpa [List.length_eq_zero] using hne
    simp only [paginateGo]
    rw [if_neg hstop, hitems]
    simp only [if_neg hne', if_pos hshort]
  · intro fetchPage pageSize m fuel hm hs hfuel hfull
    obtain ⟨acc', supply', hrun⟩ := paginateGo_full_pages fetchPage pageSize m hm hs hfull
      m fuel 1 [] 0 0 (by omega) (by omega) (by omega)
    exact ⟨acc', supply', by simpa using hrun⟩

/-- Witness for C3 at concrete loop states: the page-limit check stops
without fetching (the fetch count stays 7), and a zero-item page stops
without processing (the fetch count becomes 8, the accumulators unchanged). -/
theorem paginate_terminal_conditions_witness :
    paginateGo (fun _ => .error "never fetched") 2 3 (4 + 1) 5 [] 0 7
      = .finished [] 0 7
    ∧ paginateGo (fun _ => .ok []) 2 0 (4 + 1) 5 [] 0 7
      = .finished [] 0 (7 + 1) := by
  constructor
  · exact paginate_terminal_conditions.1 (fun _ => .error "never fetched") 2 3 4 5 [] 0 7
      (by norm_num) (by norm_num)
  · exact paginate_terminal_conditions.2.1 (fun _ => .ok []) 2 0 4 5 [] 0 7
      (by norm_num) rfl

/-! ### Helper lemmas: the balance-range partition -/

/-- Every balance matches some range: when the supply estimate is zero all
bounds are zero (falsy in the JavaScript test) and the first range matches;
otherwise the four ranges cover the line by the trichotomy of the balance
against the three thresholds. -/
theorem exists_matchesRange (T b : ℚ) :
    ∃ r ∈ initRanges T, matchesRange b r = true := by
  by_cases hT : T = 0
  · subst hT
    refine ⟨⟨"Whales (>1%)", some (1 / 100 * 0), none, 0⟩, by simp [initRanges], ?_⟩
    norm_num [matchesRange]
  · by_cases h1 : 1 / 100 * T ≤ b
    · refine ⟨⟨"Whales (>1%)", some (1 / 100 * T), none, 0⟩, by simp [initRanges], ?_⟩
      simp only [matchesRange, Bool.and_eq_true, decide_eq_true_eq, Bool.or_eq_true]
      exact ⟨Or.inr (by linarith), trivial⟩
    · by_cases h2 : 1 / 1000 * T ≤ b
      · refine ⟨⟨"Large (0.1-1%)", some (1 / 1000 * T), some (1 / 100 * T), 0⟩,
          by simp [initRanges], ?_⟩
        have hlt : b < 1 / 100 * T := lt_of_not_le h1
        simp only [matchesRange, Bool.and_eq_true, decide_eq_true_eq, Bool.or_eq_true]
        exact ⟨Or.inr (by linarith), Or.inr (by linarith)⟩
      · by_cases h3 : 1 / 10000 * T ≤ b
        · refine ⟨⟨"Medium (0.01-0.1%)", some (1 / 10000 * T), some (1 / 1000 * T), 0⟩,
            by simp [initRanges], ?_⟩
          have hlt : b < 1 / 1000 * T := lt_of_not_le h2
          simp only [matchesRange, Bool.and_eq_true, decide_eq_true_eq, Bool.or_eq_true]
          exact ⟨Or.inr (by linarith), Or.inr (by linarith)⟩
        · refine ⟨⟨"Small (<0.01%)", none, some (1 / 10000 * T), 0⟩,
            by simp [initRanges], ?_⟩
          have hlt : b < 1 / 10000 * T := lt_of_not_le h3
          simp only [matchesRange, Bool.and_eq_true, decide_eq_true_eq, Bool.or_eq_true]
          exact ⟨trivial, Or.inr (by linarith)⟩

/-- `bumpFirstMatch` only changes counts, never names or bounds. -/
theorem bumpFirstMatch_bounds (b : ℚ) :
    ∀ l : List BalanceRange,
      (bumpFirstMatch b l).map (fun r => (r.min, r.max))
        = l.map fun r => (r.min, r.max) := by
  intro l
  induction l with
  | nil => rfl
  | cons r rs ih =>
    by_cases h : matchesRange b r = true
    · simp [bumpFirstMatch, h]
    · simp [bumpFirstMatch, h, ih]

/-- If some range of the list matches, `bumpFirstMatch` increments the total
count by exactly one. -/
theorem bumpFirstMatch_counts (b : ℚ) :
    ∀ l : List BalanceRange, (∃ r ∈ l, matchesRange b r = true) →
      ((bumpFirstMatch b l).map fun r => r.count).sum
        = ((l.map fun r => r.count).sum) + 1 := by
  intro l
  induction l with
  | nil => rintro ⟨r, hr, -⟩; cases hr
  | cons r rs ih =>
    rintro ⟨r', hr', hm⟩
    by_cases h : matchesRange b r = true
    · simp only [bumpFirstMatch, if_pos h, List.map_cons, List.sum_cons]
      omega
    · have hmem : r' ∈ rs := by
        rcases List.mem_cons.mp hr' with h' | h'
        · subst h'; exact absurd hm h
        · exact h'
      simp only [bumpFirstMatch, if_neg h, List.map_cons, List.sum_cons,
        ih ⟨r', hmem, hm⟩]
      omega

/-- Matching only looks at the bounds, so existence of a match transfers
along equality of the bound lists. -/
theorem exists_matches_congr (b : ℚ) {l l' : List BalanceRange}
    (h : l'.map (fun r => (r.min, r.max)) = l.map fun r => (r.min, r.max)) :
    (∃ r ∈ l, matchesRange b r = true) → ∃ r ∈ l', matchesRange b r = true := by
  rintro ⟨r, hr, hm⟩
  have h1 : (r.min, r.max) ∈ l'.map fun r => (r.min, r.max) := by
    rw [h]; exact List.mem_map_of_mem _ hr
  obtain ⟨r', hr', hpair⟩ := List.mem_map.mp h1
  refine ⟨r', hr', ?_⟩
  have hmin : r'.min = r.min := congrArg Prod.fst hpair
  have hmax : r'.max = r.max := congrArg Prod.snd hpair
  simpa [matchesRange, hmin, hmax] using hm

/-- Folding `bumpFirstMatch` never changes the bound lists. -/
theorem foldl_bump_bounds :
    ∀ (bs : List ℚ) (l : List BalanceRange),
      ((bs.foldl (fun rs b => bumpFirstMatch b rs) l).map fun r => (r.min, r.max))
        = l.map fun r => (r.min, r.max) := by
  intro bs
  induction bs with
  | nil => intro l; rfl
  | cons b bs' ih =>
    intro l
    simp only [List.foldl_cons]
    rw [ih (bumpFirstMatch b l), bumpFirstMatch_bounds]

/-- Folding `bumpFirstMatch` over a list of balances adds exactly one count
per balance, provided every balance matches some range. -/
theorem foldl_bump_sum :
    ∀ (bs : List ℚ) (l : List BalanceRange),
      (∀ b : ℚ, ∃ r ∈ l, matchesRange b r = true) →
      ((bs.foldl (fun rs b => bumpFirstMatch b rs) l).map fun r => r.count).sum
        = ((l.map fun r => r.count).sum) + bs.length := by
  intro bs
  induction bs with
  | nil => intro l _; rfl
  | cons b bs' ih =>
    intro l hex
    have hinv : ∀ b' : ℚ, ∃ r ∈ bumpFirstMatch b l, matchesRange b' r = true :=
      fun b' => exists_matches_congr b' (bumpFirstMatch_bounds b l) (hex b')
    simp only [List.foldl_cons]
    rw [ih (bumpFirstMatch b l) hinv, bumpFirstMatch_counts b l (hex b)]
    simp only [List.length_cons]
    omega

/-- Claim C6: `calculateHolderDistribution` counts each distinct owner in
exactly one of the four buckets — the test of every balance succeeds on some
range (so the first-match loop increments exactly once per owner) — and the
bucket counts sum to the number of distinct owners (the length of the
per-owner balance list). -/
theorem calculateHolderDistribution_partition (balances : List ℚ) (totalSupply : ℚ) :
    (calculateHolderDistribution balances totalSupply).length = 4
    ∧ ((calculateHolderDistribution balances totalSupply).map fun r => r.count).sum
        = balances.length
    ∧ ∀ b : ℚ, ∃ r ∈ initRanges totalSupply, matchesRange b r = true := by
  refine ⟨?_, ?_, exists_matchesRange totalSupply⟩
  · have h := foldl_bump_bounds balances (initRanges totalSupply)
    have h1 := congrArg List.length h
    simpa [calculateHolderDistribution, initRanges] using h1
  · have h := foldl_bump_sum balances (initRanges totalSupply)
      (exists_matchesRange totalSupply)
    simpa [calculateHolderDistribution, initRanges] using h

/-- Witness for C6 at a concrete balance map and supply. -/
theorem calculateHolderDistribution_partition_witness :
    ((calculateHolderDistribution [5, 50, 500, 5000] 10000).map fun r => r.count).sum = 4 := by
  have h := (calculateHolderDistribution_partition [5, 50, 500, 5000] 10000).2.1
  simpa using h

/-! ### Helper lemmas: holder balances and the stable descending sort -/

/-- `addBalance` leaves the key list unchanged when the owner is already
present and appends the owner otherwise. -/
theorem addBalance_keys (o : String) (amt : ℚ) :
    ∀ l : List (String × ℚ),
      (addBalance l o amt).map Prod.fst
        = if o ∈ l.map Prod.fst then l.map Prod.fst
          else l.map Prod.fst ++ [o] := by
  intro l
  induction l with
  | nil => simp [addBalance]
  | cons p rest ih =>
    obtain ⟨o', b⟩ := p
    by_cases h : o' = o
    · subst h
      simp [addBalance]
    · simp only [addBalance, if_neg h, List.map_cons, ih]
      by_cases hmem : o ∈ rest.map Prod.fst
      · rw [if_pos hmem, if_pos (by simp [hmem])]
      · rw [if_neg hmem, if_neg (by simp [hmem, Ne.symm h])]
        simp

/-- Folding `addBalance` over accounts keeps the key list duplicate-free, and
the final keys are the initial keys together with the owners encountered. -/
theorem holderBalances_foldl_keys :
    ∀ (accounts : List ProcessedAccount) (l : List (String × ℚ)),
      (l.map Prod.fst).Nodup →
      ((accounts.foldl (fun l a => addBalance l a.owner (a.amount.getD 0)) l).map
          Prod.fst).Nodup
      ∧ ∀ o, o ∈ (accounts.foldl (fun l a => addBalance l a.owner (a.amount.getD 0)) l).map
            Prod.fst
          ↔ o ∈ l.map Prod.fst ∨ o ∈ accounts.map fun a => a.owner := by
  intro accounts
  induction accounts with
  | nil =>
    intro l h
    exact ⟨h, fun o => by simp⟩
  | cons a rest ih =>
    intro l h
    have hkeys := addBalance_keys a.owner (a.amount.getD 0) l
    have hnodup : ((addBalance l a.owner (a.amount.getD 0)).map Prod.fst).Nodup := by
      rw [hkeys]
      by_cases hmem : a.owner ∈ l.map Prod.fst
      · rw [if_pos hmem]; exact h
      · rw [if_neg hmem]
        simp [List.nodup_append, h, hmem]
    obtain ⟨hn, hiff⟩ := ih (addBalance l a.owner (a.amount.getD 0)) hnodup
    refine ⟨by simpa using hn, fun o => ?_⟩
    have hmem1 : o ∈ (addBalance l a.owner (a.amount.getD 0)).map Prod.fst
        ↔ o ∈ l.map Prod.fst ∨ o = a.owner := by
      rw [hkeys]
      by_cases hmem : a.owner ∈ l.map Prod.fst
      · rw [if_pos hmem]
        constructor
        · exact Or.inl
        · rintro (h' | rfl)
          · exact h'
          · exact hmem
      · rw [if_neg hmem]; simp
    simp only [List.foldl_cons]
    rw [hiff o, hmem1]
    simp only [List.map_cons, List.mem_cons]
    tauto

/-- The balance map has one entry per distinct owner of the account list. -/
theorem holderBalances_length (accounts : List ProcessedAccount) :
    (holderBalancesOf accounts).length = distinctOwnerCount accounts := by
  obtain ⟨hnodup, hiff⟩ := holderBalances_foldl_keys accounts [] (by simp)
  have hnodup' : ((holderBalancesOf accounts).map Prod.fst).Nodup := hnodup
  have hiff' : ∀ o, o ∈ (holderBalancesOf accounts).map Prod.fst
      ↔ o ∈ (([] : List (String × ℚ)).map Prod.fst)
        ∨ o ∈ accounts.map fun a => a.owner := hiff
  have hlen : (holderBalancesOf accounts).length
      = ((holderBalancesOf accounts).map Prod.fst).length := (List.length_map _ _).symm
  rw [distinctOwnerCount, hlen, ← List.toFinset_card_of_nodup hnodup']
  congr 1
  ext o
  simp only [List.mem_toFinset]
  rw [hiff' o]
  simp

/-- Membership in an insertion. -/
theorem insertDesc_mem (x : HolderEntry) :
    ∀ (l : List HolderEntry) (y : HolderEntry),
      y ∈ insertDesc x l ↔ y = x ∨ y ∈ l := by
  intro l
  induction l with
  | nil => intro y; simp [insertDesc]
  | cons z zs ih =>
    intro y
    by_cases h : x.balance < z.balance
    · simp only [insertDesc, if_pos h, List.mem_cons, ih]
      tauto
    · simp only [insertDesc, if_neg h, List.mem_cons]

/-- Inserting preserves the descending pairwise order. -/
theorem insertDesc_pairwise (x : HolderEntry) :
    ∀ l : List HolderEntry,
      l.Pairwise (fun a b => b.balance ≤ a.balance) →
      (insertDesc x l).Pairwise fun a b => b.balance ≤ a.balance := by
  intro l
  induction l with
  | nil => intro _; simp [insertDesc]
  | cons y ys ih =>
    intro hp
    rw [List.pairwise_cons] at hp
    obtain ⟨hy, hys⟩ := hp
    by_cases h : x.balance < y.balance
    · simp only [insertDesc, if_pos h]
      rw [List.pairwise_cons]
      refine ⟨fun z hz => ?_, ih hys⟩
      rcases (insertDesc_mem x ys z).mp hz with rfl | hz'
      · exact le_of_lt h
      · exact hy z hz'
    · simp only [insertDesc, if_neg h]
      rw [List.pairwise_cons]
      refine ⟨fun z hz => ?_, List.pairwise_cons.mpr ⟨hy, hys⟩⟩
      rcases List.mem_cons.mp hz with rfl | hz'
      · exact le_of_not_lt h
      · exact le_trans (hy z hz') (le_of_not_lt h)

/-- The insertion sort is descending-sorted. -/
theorem sortDesc_pairwise :
    ∀ l : List HolderEntry,
      (sortDesc l).Pairwise fun a b => b.balance ≤ a.balance := by
  intro l
  induction l with
  | nil => simp [sortDesc]
  | cons x xs ih => exact insertDesc_pairwise x (sortDesc xs) ih

/-- Insertion preserves length. -/
theorem insertDesc_length (x : HolderEntry) :
    ∀ l : List HolderEntry, (insertDesc x l).length = l.length + 1 := by
  intro l
  induction l with
  | nil => rfl
  | cons y ys ih =>
    by_cases h : x.balance < y.balance
    · simp [insertDesc, if_pos h, ih]
    · simp [insertDesc, if_neg h]

/-- Sorting preserves length. -/
theorem sortDesc_length : ∀ l : List HolderEntry, (sortDesc l).length = l.length := by
  intro l
  induction l with
  | nil => rfl
  | cons x xs ih => simp [sortDesc, insertDesc_length, ih]

/-- Inserting an element of balance `q` prepends it to the `q`-filtered
sublist: every element the insertion skips has a strictly larger balance. -/
theorem insertDesc_filter_eq (x : HolderEntry) (q : ℚ) (hx : x.balance = q) :
    ∀ l : List HolderEntry,
      (insertDesc x l).filter (fun h => h.balance == q)
        = x :: l.filter fun h => h.balance == q := by
  intro l
  induction l with
  | nil => simp [insertDesc, List.filter, hx]
  | cons y ys ih =>
    by_cases h : x.balance < y.balance
    · have hy : (y.balance == q) = false := by
        rw [beq_eq_false_iff_ne]
        intro hq
        rw [hq, ← hx] at h
        exact lt_irrefl _ h
      simp only [insertDesc, if_pos h, List.filter_cons, hy, ih]
      simp
    · simp only [insertDesc, if_neg h]
      simp [List.filter_cons, hx]

/-- Inserting an element of a different balance leaves the `q`-filtered
sublist unchanged. -/
theorem insertDesc_filter_ne (x : HolderEntry) (q : ℚ) (hx : x.balance ≠ q) :
    ∀ l : List HolderEntry,
      (insertDesc x l).filter (fun h => h.balance == q)
        = l.filter fun h => h.balance == q := by
  have hxf : (x.balance == q) = false := beq_eq_false_iff_ne.mpr hx
  intro l
  induction l with
  | nil => simp [insertDesc, List.filter_cons, hxf]
  | cons y ys ih =>
    by_cases h : x.balance < y.balance
    · simp [insertDesc, if_pos h, List.filter_cons, ih]
    · simp only [insertDesc, if_neg h]
      simp [List.filter_cons, hxf]

/-- Stability of the sort: for every balance value, the sublist of entries
with that balance is unchanged, i.e. ties keep their original order. -/
theorem sortDesc_filter (q : ℚ) :
    ∀ l : List HolderEntry,
      (sortDesc l).filter (fun h => h.balance == q)
        = l.filter fun h => h.balance == q := by
  intro l
  induction l with
  | nil => rfl
  | cons x xs ih =>
    by_cases hx : x.balance = q
    · rw [sortDesc, insertDesc_filter_eq x q hx (sortDesc xs), ih]
      simp [List.filter_cons, hx]
    · rw [sortDesc, insertDesc_filter_ne x q hx (sortDesc xs), ih]
      simp [List.filter_cons, hx]

/-- Claim C7: the `top_holders` list is the 10-element prefix of the sorted
holder list, its length is `min 10 (number of distinct owners)`, it is sorted
in non-increasing balance order, and ties keep the order in which the owners
first appeared in the page-arrival sequence (the order of `holderEntries`). -/
theorem topHolders_sorted_stable (accounts : List ProcessedAccount) :
    topHoldersOf accounts
      = (sortedHoldersOf accounts).take (min 10 (sortedHoldersOf accounts).length)
    ∧ (topHoldersOf accounts).length = min 10 (distinctOwnerCount accounts)
    ∧ (topHoldersOf accounts).Pairwise (fun a b => b.balance ≤ a.balance)
    ∧ ∀ q : ℚ, (sortedHoldersOf accounts).filter (fun h => h.balance == q)
        = (holderEntries accounts).filter fun h => h.balance == q := by
  have hlen : (sortedHoldersOf accounts).length = distinctOwnerCount accounts := by
    rw [sortedHoldersOf, sortDesc_length, holderEntries, List.length_map]
    exact holderBalances_length accounts
  refine ⟨rfl, ?_, ?_, fun q => sortDesc_filter q (holderEntries accounts)⟩
  · rw [topHoldersOf, List.length_take, hlen]
    omega
  · exact List.Pairwise.sublist (List.take_sublist _ _) (sortDesc_pairwise _)

/-- Witness for C7 at a concrete account list with a balance tie:
two owners with equal summed balances keep their arrival order. -/
theorem topHolders_sorted_stable_witness :
    (topHoldersOf [⟨"a", "x", some 5, 6⟩, ⟨"b", "y", some 5, 6⟩]).length
      = min 10 (distinctOwnerCount [⟨"a", "x", some 5, 6⟩, ⟨"b", "y", some 5, 6⟩])
    ∧ (sortedHoldersOf [⟨"a", "x", some 5, 6⟩, ⟨"b", "y", some 5, 6⟩]).filter
        (fun h => h.balance == 5)
      = (holderEntries [⟨"a", "x", some 5, 6⟩, ⟨"b", "y", some 5, 6⟩]).filter
          fun h => h.balance == 5 := by
  have h := topHolders_sorted_stable [⟨"a", "x", some 5, 6⟩, ⟨"b", "y", some 5, 6⟩]
  exact ⟨h.2.1, h.2.2.2 5⟩

/-! ### Helper lemma: pair selection -/

/-- A selected main pair comes from the input pair list. -/
theorem selectMainPair_mem (normAddr : String) (pairs : List DexPair) (mp : DexPair)
    (h : selectMainPair normAddr pairs = some mp) : mp ∈ pairs := by
  simp only [selectMainPair] at h
  rcases hfind : (pairs.filter fun p =>
      lowerStr p.baseAddr == normAddr || lowerStr p.quoteAddr == normAddr).find?
      (fun p => lowerStr p.baseAddr == normAddr) with - | p
  · rw [hfind] at h
    simp only [Option.orElse] at h
    rcases hrel : pairs.filter (fun p =>
        lowerStr p.baseAddr == normAddr || lowerStr p.quoteAddr == normAddr) with - | ⟨q, qs⟩
    · rw [hrel] at h; cases h
    · rw [hrel] at h
      simp only [List.head?] at h
      cases h
      have : mp ∈ pairs.filter fun p =>
          lowerStr p.baseAddr == normAddr || lowerStr p.quoteAddr == normAddr := by
        rw [hrel]; exact List.mem_cons_self _ _
      exact List.mem_of_mem_filter this
  · rw [hfind] at h
    simp only [Option.orElse] at h
    cases h
    exact List.mem_of_mem_filter (List.mem_of_find?_eq_some hfind)

/-- Claim C8: when no relevant pair has the requested token as base (so the
selected pair has it as quote), the returned `price_usd` is the reciprocal of
the pair's raw `priceUsd` and every `price_change` timeframe field is the
negation of the pair's raw value; when the requested token is the base of the
selected pair, the fields are returned unchanged. -/
theorem dexscreener_quote_inversion (tokenAddress : String) (pairs : List DexPair)
    (mp : DexPair) (hsel : selectMainPair (lowerStr tokenAddress) pairs = some mp) :
    ((∀ p ∈ pairs, lowerStr p.baseAddr ≠ lowerStr tokenAddress) →
      ∃ md, fetchDexScreenerData tokenAddress pairs = some md
        ∧ md.is_base_token = false
        ∧ (∀ pu, mp.priceUsd = some pu → md.price_usd = 1 / pu)
        ∧ md.price_change_h24 = -(mp.priceChange_h24.getD 0)
        ∧ md.price_change_h6 = -(mp.priceChange_h6.getD 0)
        ∧ md.price_change_h1 = -(mp.priceChange_h1.getD 0)
        ∧ md.price_change_m5 = -(mp.priceChange_m5.getD 0))
    ∧ (lowerStr mp.baseAddr = lowerStr tokenAddress →
      ∃ md, fetchDexScreenerData tokenAddress pairs = some md
        ∧ md.is_base_token = true
        ∧ md.price_usd = mp.priceUsd.getD 0
        ∧ md.price_change_h24 = mp.priceChange_h24.getD 0
        ∧ md.price_change_h6 = mp.priceChange_h6.getD 0
        ∧ md.price_change_h1 = mp.priceChange_h1.getD 0
        ∧ md.price_change_m5 = mp.priceChange_m5.getD 0) := by
  have hmem := selectMainPair_mem (lowerStr tokenAddress) pairs mp hsel
  have hfetch : fetchDexScreenerData tokenAddress pairs
      = some (buildMarketData (lowerStr tokenAddress) mp) := by
    rw [fetchDexScreenerData, hsel]; rfl
  constructor
  · intro hnb
    have hb : (lowerStr mp.baseAddr == lowerStr tokenAddress) = false :=
      beq_eq_false_iff_ne.mpr (hnb mp hmem)
    refine ⟨buildMarketData (lowerStr tokenAddress) mp, hfetch, ?_, ?_, ?_, ?_, ?_, ?_⟩
    · simp [buildMarketData, hb]
    · intro pu hpu
      simp [buildMarketData, hb, hpu]
    · simp [buildMarketData, hb]
    · simp [buildMarketData, hb]
    · simp [buildMarketData, hb]
    · simp [buildMarketData, hb]
  · intro hbase
    have hb : (lowerStr mp.baseAddr == lowerStr tokenAddress) = true :=
      beq_iff_eq.mpr hbase
    refine ⟨buildMarketData (lowerStr tokenAddress) mp, hfetch, ?_, ?_, ?_, ?_, ?_, ?_⟩
    · simp [buildMarketData, hb]
    · simp [buildMarketData, hb]
    · simp [buildMarketData, hb]
    · simp [buildMarketData, hb]
    · simp [buildMarketData, hb]
    · simp [buildMarketData, hb]

/-- Witness for C8: a quote-side pair with raw price 4 and 24h change 10
yields price 1/4 and change -10; a base-side pair yields them unchanged. -/
theorem dexscreener_quote_inversion_witness :
    ((fetchDexScreenerData "abc"
        [⟨"sol", "abc", some 4, some 2, some 10, some 5, some 3, some 1⟩]).map
      fun md => md.price_usd) = some (1 / 4)
    ∧ ((fetchDexScreenerData "abc"
        [⟨"sol", "abc", some 4, some 2, some 10, some 5, some 3, some 1⟩]).map
      fun md => md.price_change_h24) = some (-10)
    ∧ ((fetchDexScreenerData "abc"
        [⟨"abc", "sol", some 4, some 2, some 10, some 5, some 3, some 1⟩]).map
      fun md => md.price_usd) = some 4
    ∧ ((fetchDexScreenerData "abc"
        [⟨"abc", "sol", some 4, some 2, some 10, some 5, some 3, some 1⟩]).map
      fun md => md.price_change_h24) = some 10 := by
  obtain ⟨mdq, hq1, -, hq3, hq4, -⟩ :=
    (dexscreener_quote_inversion "abc"
      [⟨"sol", "abc", some 4, some 2, some 10, some 5, some 3, some 1⟩]
      ⟨"sol", "abc", some 4, some 2, some 10, some 5, some 3, some 1⟩ (by decide)).1
    (by decide)
  obtain ⟨mdb, hb1, -, hb3, hb4, -⟩ :=
    (dexscreener_quote_inversion "abc"
      [⟨"abc", "sol", some 4, some 2, some 10, some 5, some 3, some 1⟩]
      ⟨"abc", "sol", some 4, some 2, some 10, some 5, some 3, some 1⟩ (by decide)).2
    (by decide)
  rw [hq1, hb1]
  simp only [Option.map_some']
  refine ⟨?_, ?_, ?_, ?_⟩
  · rw [hq3 4 rfl]
  · rw [hq4]
    rfl
  · rw [hb3]
    rfl
  · rw [hb4]
    rfl

/-! ### Helper lemmas: the running total-supply estimate -/

/-- A page's supply contribution equals the sum of the raw parsed amounts of
the records it pushes. -/
theorem pageSupply_eq (items : List RawAccount) :
    pageSupply items = ((keepAccounts items).map fun r => r.amount.getD 0).sum := by
  simp only [pageSupply, keepAccounts, List.map_map]
  rfl

/-- Invariant of the pagination loop: whenever the accumulated supply equals
the sum of the raw parsed amounts of the accumulated records, every
`finished` or `failed` outcome satisfies the same equation. -/
theorem paginateGo_supply (fetchPage : ℕ → Except String (List RawAccount))
    (pageSize maxPages : ℕ) :
    ∀ (fuel page : ℕ) (acc : List ProcessedAccount) (supply : ℚ) (fetches : ℕ),
      supply = (acc.map fun r => r.amount.getD 0).sum →
      (∀ (acc1 : List ProcessedAccount) (supply1 : ℚ) (fetches1 : ℕ),
        paginateGo fetchPage pageSize maxPages fuel page acc supply fetches
          = .finished acc1 supply1 fetches1 →
        supply1 = (acc1.map fun r => r.amount.getD 0).sum)
      ∧ (∀ (e : String) (acc1 : List ProcessedAccount) (supply1 : ℚ) (fetches1 : ℕ),
        paginateGo fetchPage pageSize maxPages fuel page acc supply fetches
          = .failed e acc1 supply1 fetches1 →
        supply1 = (acc1.map fun r => r.amount.getD 0).sum) := by
  intro fuel
  induction fuel with
  | zero =>
    intro page acc supply fetches hsup
    constructor
    · intro acc1 supply1 fetches1 hEq
      simp [paginateGo] at hEq
    · intro e acc1 supply1 fetches1 hEq
      simp [paginateGo] at hEq
  | succ f ih =>
    intro page acc supply fetches hsup
    have hstep : ∀ (r : PagResult),
        paginateGo fetchPage pageSize maxPages (f + 1) page acc supply fetches = r →
        (∀ acc1 supply1 fetches1, r = .finished acc1 supply1 fetches1 →
          supply1 = (acc1.map fun r => r.amount.getD 0).sum)
        ∧ (∀ e acc1 supply1 fetches1, r = .failed e acc1 supply1 fetches1 →
          supply1 = (acc1.map fun r => r.amount.getD 0).sum) := by
      intro r hEq
      simp only [paginateGo] at hEq
      split at hEq
      · subst hEq
        refine ⟨fun acc1 supply1 fetches1 hEq' => ?_, fun e acc1 supply1 fetches1 hEq' => ?_⟩
        · cases hEq'; exact hsup
        · cases hEq'
      · split at hEq
        · subst hEq
          refine ⟨fun acc1 supply1 fetches1 hEq' => ?_,
            fun e1 acc1 supply1 fetches1 hEq' => ?_⟩
          · cases hEq'
          · cases hEq'; exact hsup
        · rename_i items heq
          split at hEq
          · subst hEq
            refine ⟨fun acc1 supply1 fetches1 hEq' => ?_,
              fun e1 acc1 supply1 fetches1 hEq' => ?_⟩
            · cases hEq'; exact hsup
            · cases hEq'
          · have hsup' : supply + pageSupply items
                = ((acc ++ keepAccounts items).map fun r => r.amount.getD 0).sum := by
              rw [hsup, pageSupply_eq]
              simp [List.map_append]
            split at hEq
            · subst hEq
              refine ⟨fun acc1 supply1 fetches1 hEq' => ?_,
                fun e1 acc1 supply1 fetches1 hEq' => ?_⟩
              · cases hEq'; exact hsup'
              · cases hEq'
            · subst hEq
              exact ih (page + 1) (acc ++ keepAccounts items)
                (supply + pageSupply items) (fetches + 1) hsup'
    constructor
    · intro acc1 supply1 fetches1 hEq
      exact (hstep _ rfl).1 acc1 supply1 fetches1 hEq
    · intro e acc1 supply1 fetches1 hEq
      exact (hstep _ rfl).2 e acc1 supply1 fetches1 hEq

/-- Counterexample for C10: the code's total-supply estimate is NOT scaled by
the decimals field.  A single record with raw amount 1000000 and
`decimals = 6` produces the estimate 1000000, while the spec's
"amount scaled by its decimals field" is 1. -/
theorem supplyEstimate_not_scaled_counterexample :
    paginate (fun _ => .ok [⟨"a", "x", some 1000000⟩]) 10 0 3
      = .finished [⟨"a", "x", some 1000000, 6⟩] 1000000 1
    ∧ specScaledSupply [⟨"a", "x", some 1000000, 6⟩] = 1
    ∧ (1000000 : ℚ) ≠ 1 := by
  have hs : (("a" : String) == "") = false := by decide
  refine ⟨?_, ?_, by norm_num⟩
  · norm_num [paginate, paginateGo, keepAccounts, pageSupply, List.filter_cons,
      List.sum_cons, List.sum_nil, hs]
  · norm_num [specScaledSupply]

/-- Claim C10, amended: the total-supply estimate used by
`fetchAllTokenHolders` for concentration and distribution math equals the
running sum over all processed records of the record's RAW parsed amount —
the `decimals` field (stored as the constant 6) is never applied. -/
theorem paginate_supply_raw_sum (fetchPage : ℕ → Except String (List RawAccount))
    (pageSize maxPages fuel : ℕ) :
    (∀ (acc : List ProcessedAccount) (supply : ℚ) (fetches : ℕ),
      paginate fetchPage pageSize maxPages fuel = .finished acc supply fetches →
      supply = (acc.map fun r => r.amount.getD 0).sum)
    ∧ (∀ (e : String) (acc : List ProcessedAccount) (supply : ℚ) (fetches : ℕ),
      paginate fetchPage pageSize maxPages fuel = .failed e acc supply fetches →
      supply = (acc.map fun r => r.amount.getD 0).sum) := by
  exact paginateGo_supply fetchPage pageSize maxPages fuel 1 [] 0 0 (by simp)

/-- Witness for the amended C10 at a concrete one-page upstream. -/
theorem paginate_supply_raw_sum_witness :
    (1000000 : ℚ)
      = (([⟨"a", "x", some 1000000, 6⟩] : List ProcessedAccount).map
          fun r => r.amount.getD 0).sum := by
  have hs : (("a" : String) == "") = false := by decide
  exact (paginate_supply_raw_sum (fun _ => .ok [⟨"a", "x", some 1000000⟩]) 10 0 3).1
    [⟨"a", "x", some 1000000, 6⟩] 1000000 1
    (by norm_num [paginate, paginateGo, keepAccounts, pageSupply, List.filter_cons,
      List.sum_cons, List.sum_nil, hs])

/-- Counterexample for C9: on retry exhaustion the returned object does NOT
preserve the collected holder records.  One account (owner "alice") was
collected from page 1 before page 2 exhausted its retries, yet the returned
object's `top_holders` is the empty list — only the counts survive. -/
theorem partialFailure_drops_collected_data :
    fetchAllTokenHolders
        (fun p => if p = 1 then .ok [⟨"alice", "addrA", some 5⟩] else .error "boom")
        1 0 3
      = some (buildFailure "boom" [⟨"alice", "addrA", some 5, 6⟩])
    ∧ (buildFailure "boom" [⟨"alice", "addrA", some 5, 6⟩]).token_accounts_count = 1
    ∧ (buildFailure "boom" [⟨"alice", "addrA", some 5, 6⟩]).top_holders = some [] := by
  have hs : (("alice" : String) == "") = false := by decide
  have hpag : paginate
      (fun p => if p = 1 then .ok [⟨"alice", "addrA", some 5⟩] else .error "boom") 1 0 3
      = .failed "boom" [⟨"alice", "addrA", some 5, 6⟩] 5 2 := by
    norm_num [paginate, paginateGo, keepAccounts, pageSupply, List.filter_cons,
      List.sum_cons, List.sum_nil, hs]
  refine ⟨by simp only [fetchAllTokenHolders, hpag], rfl, by decide⟩

/-- Claim C9, amended: when a page request exhausts its retries during full
pagination, `fetchAllTokenHolders` returns (does not throw) an object with
`success: false` and `data_source: 'failed_with_partial_data'` that preserves
only the COUNTS of the data collected before the failure
(`unique_holder_count`, `token_accounts_count`); `top_holders` is an empty
list when any holder had been collected (and null otherwise), so the
collected records themselves are not returned. -/
theorem fetchAllTokenHolders_partialFailure
    (fetchPage : ℕ → Except String (List RawAccount)) (pageSize maxPages fuel : ℕ)
    (e : String) (acc : List ProcessedAccount) (supply : ℚ) (fetches : ℕ)
    (h : paginate fetchPage pageSize maxPages fuel = .failed e acc supply fetches) :
    fetchAllTokenHolders fetchPage pageSize maxPages fuel = some (buildFailure e acc)
    ∧ (buildFailure e acc).success = false
    ∧ (buildFailure e acc).data_source = "failed_with_partial_data"
    ∧ (buildFailure e acc).token_accounts_count = acc.length
    ∧ (buildFailure e acc).unique_holder_count = distinctOwnerCount acc
    ∧ (buildFailure e acc).top_holders
        = (if 0 < distinctOwnerCount acc then some [] else none) := by
  refine ⟨?_, rfl, rfl, rfl, rfl, rfl⟩
  simp only [fetchAllTokenHolders, h]

/-- Witness for the amended C9 at a concrete failing upstream. -/
theorem fetchAllTokenHolders_partialFailure_witness :
    fetchAllTokenHolders
        (fun p => if p = 1 then .ok [⟨"alice", "addrA", some 5⟩] else .error "boom")
        1 0 3
      = some (buildFailure "boom" [⟨"alice", "addrA", some 5, 6⟩])
    ∧ (buildFailure "boom" [⟨"alice", "addrA", some 5, 6⟩]).success = false
    ∧ (buildFailure "boom" [⟨"alice", "addrA", some 5, 6⟩]).data_source
        = "failed_with_partial_data" := by
  have hs : (("alice" : String) == "") = false := by decide
  have h := fetchAllTokenHolders_partialFailure
    (fun p => if p = 1 then .ok [⟨"alice", "addrA", some 5⟩] else .error "boom")
    1 0 3 "boom" [⟨"alice", "addrA", some 5, 6⟩] 5 2
    (by norm_num [paginate, paginateGo, keepAccounts, pageSupply, List.filter_cons,
      List.sum_cons, List.sum_nil, hs])
  exact ⟨h.1, h.2.1, h.2.2.1⟩
